import Mathlib

/-!
# Verification of the URL-shortener Registry (src/services/urlService.ts)

Shallow embedding of the `UrlService` class.  Time is modelled as an integer
millisecond timestamp (JS `Date.getTime()`); the `Math.random()` draws of the
code generator are modelled as an explicit stream `Nat → Fin 62` giving, for
each consumed draw, the value `Math.floor(Math.random() * 62)` computed by
`generateShortCode` (always in `[0, 62)` since `Math.random() ∈ [0,1)`).
The `Map<string, ShortenedUrl>` is modelled as an insertion-ordered
association list, matching JS `Map` iteration order.  `localStorage`
persistence and the logger are external collaborators with no effect on the
registry state and are not modelled.
-/

set_option autoImplicit false

namespace UrlService

/-- `ClickData` from the repository's type declarations (timestamps as
integer milliseconds instead of ISO strings; the code only ever compares
them through `Date.getTime()`). -/
structure ClickData where
  id : String
  timestamp : Int
  source : String
  location : String
  userAgent : String
  deriving Repr, DecidableEq

/-- `ShortenedUrl` from the repository's type declarations.  `customCode` is
the optional field `customCode?: string` (it stores `request.customShortCode`
verbatim, including a possibly empty string). -/
structure ShortenedUrl where
  id : String
  originalUrl : String
  shortCode : String
  customCode : Option String
  createdAt : Int
  expiresAt : Int
  isExpired : Bool
  clicks : List ClickData
  totalClicks : Nat
  deriving Repr, DecidableEq

/-- `CreateUrlRequest` from the repository's type declarations.
`validityMinutes?: number` is an optional JS number, modelled as an optional
integer. -/
structure CreateUrlRequest where
  originalUrl : String
  validityMinutes : Option Int
  customShortCode : Option String
  deriving Repr, DecidableEq

/-- The private `urls: Map<string, ShortenedUrl>` field of `UrlService`:
an insertion-ordered association list with (by construction) unique keys. -/
structure RegistryState where
  urls : List (String × ShortenedUrl)
  deriving Repr, DecidableEq

/-- JS `Map.prototype.set`: replace in place if the key is present,
otherwise append (JS `Map` preserves insertion order). -/
def mapSet (st : RegistryState) (k : String) (v : ShortenedUrl) : RegistryState :=
  if st.urls.any (fun p => p.1 == k) then
    ⟨st.urls.map (fun p => if p.1 == k then (k, v) else p)⟩
  else
    ⟨st.urls ++ [(k, v)]⟩

/-- JS string truthiness of the optional `customShortCode` field:
`undefined` and `""` are falsy, every other string truthy. -/
def optTruthy : Option String → Bool
  | none => false
  | some s => !(s == "")

/-- The 62-character alphabet of `generateShortCode`
(`'ABC…XYZabc…xyz012…9'`). -/
def characters : String :=
  "ABCDEFGHIJKLMNOPQRSTUVWXYZabcdefghijklmnopqrstuvwxyz0123456789"

/-- The alphabet as a character list. -/
def charsList : List Char := characters.data

/-- `characters.charAt(Math.floor(Math.random() * 62))` for one draw `d`:
the drawn value is always in range, so `charAt` never falls off the end. -/
def drawChar (d : Fin 62) : Char := charsList.getD d.val 'A'

/-- `generateShortCode(length)` starting at position `start` of the random
stream: the loop appends `characters.charAt(⌊random*62⌋)` `len` times. -/
def generateShortCode (len : Nat) (stream : Nat → Fin 62) (start : Nat) : String :=
  String.mk ((List.range len).map (fun i => drawChar (stream (start + i))))

/-- `isShortCodeTaken(shortCode)`: scans every stored mapping's `shortCode`. -/
def isShortCodeTaken (st : RegistryState) (shortCode : String) : Bool :=
  st.urls.any (fun p => p.2.shortCode == shortCode)

/-- The `do … while` loop of `generateUniqueShortCode`, with `fuel` checked
attempts remaining.  Each iteration draws a 6-character code (consuming 6
stream positions) and retries while it is taken; when the attempt counter
exceeds `maxAttempts = 100`, the loop body first performs its (discarded)
6-character draw, then draws an 8-character code and breaks without any
collision check. -/
def genLoop (taken : String → Bool) (stream : Nat → Fin 62) : Nat → Nat → String
  | 0, pos => generateShortCode 8 stream (pos + 6)
  | fuel + 1, pos =>
    let code := generateShortCode 6 stream pos
    if taken code then genLoop taken stream fuel (pos + 6) else code

/-- `generateUniqueShortCode()`: up to `maxAttempts = 100` collision-checked
6-character draws, then the unconditional 8-character fallback. -/
def generateUniqueShortCode (taken : String → Bool) (stream : Nat → Fin 62) : String :=
  genLoop taken stream 100 0

/-- A character matched by `[A-Za-z0-9]`. -/
def isAlphanumChar (c : Char) : Bool :=
  (('A' ≤ c && c ≤ 'Z') || ('a' ≤ c && c ≤ 'z') || ('0' ≤ c && c ≤ '9'))

/-- `isValidShortCode(shortCode)`: the regex `^[A-Za-z0-9]{1,20}$`. -/
def isValidShortCode (shortCode : String) : Bool :=
  decide (1 ≤ shortCode.length) && decide (shortCode.length ≤ 20)
    && shortCode.data.all isAlphanumChar

/-- Error kinds thrown by `createShortenedUrl`. -/
inductive CreateError where
  | invalidUrl
  | invalidShortCode
  | shortCodeTaken
  deriving Repr, DecidableEq

/-- Lines 91–110 of `createShortenedUrl`: computes the expiry
(`request.validityMinutes || 30`, so a supplied `0` is falsy and defaults),
builds the `ShortenedUrl` object with empty click history, and stores it
under the fresh id. -/
def mkCreated (st : RegistryState) (req : CreateUrlRequest) (now : Int)
    (freshId : String) (shortCode : String) : ShortenedUrl × RegistryState :=
  let validityMinutes : Int :=
    match req.validityMinutes with
    | none => 30
    | some m => if m = 0 then 30 else m
  let expiresAt : Int := now + validityMinutes * 60 * 1000
  let url : ShortenedUrl :=
    { id := freshId
      originalUrl := req.originalUrl
      shortCode := shortCode
      customCode := req.customShortCode
      createdAt := now
      expiresAt := expiresAt
      isExpired := false
      clicks := []
      totalClicks := 0 }
  (url, mapSet st freshId url)

/-- `createShortenedUrl(request)`.  `validUrl` models the platform's
`new URL(...)` parser (an external collaborator, not repository code);
`now` is `Date.now()`, `stream` the random draws, `freshId` the generated
`id` (`Date.now().toString() + Math.random().toString(36).substr(2, 9)`). -/
def createShortenedUrl (validUrl : String → Bool) (st : RegistryState)
    (req : CreateUrlRequest) (now : Int) (stream : Nat → Fin 62)
    (freshId : String) : Except CreateError (ShortenedUrl × RegistryState) :=
  if !validUrl req.originalUrl then
    .error .invalidUrl
  else if optTruthy req.customShortCode then
    let s := req.customShortCode.getD ""
    if !isValidShortCode s then
      .error .invalidShortCode
    else if isShortCodeTaken st s then
      .error .shortCodeTaken
    else
      .ok (mkCreated st req now freshId s)
  else
    .ok (mkCreated st req now freshId
      (generateUniqueShortCode (isShortCodeTaken st) stream))

/-- The in-place mutation `url.isExpired = true` on the stored object with
key `k`. -/
def markExpired (st : RegistryState) (k : String) : RegistryState :=
  ⟨st.urls.map (fun p => if p.1 == k then (p.1, { p.2 with isExpired := true }) else p)⟩

/-- `getUrlByShortCode(shortCode)`, also exposing the found entry's map key
(the JS code holds a reference to the stored object; the key is that object's
identity).  `find` takes the first mapping in insertion order whose
`shortCode` matches; an expired hit is flagged (`isExpired = true`, persisted)
and reported as not found. -/
def getUrlEntryByShortCode (st : RegistryState) (shortCode : String) (now : Int) :
    Option (String × ShortenedUrl) × RegistryState :=
  match st.urls.find? (fun p => p.2.shortCode == shortCode) with
  | none => (none, st)
  | some (k, url) =>
    if now > url.expiresAt then
      (none, markExpired st k)
    else
      (some (k, url), st)

/-- `getUrlByShortCode(shortCode)` as the caller sees it. -/
def getUrlByShortCode (st : RegistryState) (shortCode : String) (now : Int) :
    Option ShortenedUrl × RegistryState :=
  let r := getUrlEntryByShortCode st shortCode now
  (r.1.map (fun p => p.2), r.2)

/-- The click record built by `recordClickAndRedirect`: fresh id, current
timestamp, the given source, the stub geolocation's `country` field
(always `"Unknown"`), and the caller environment's user agent. -/
def mkClick (clickId : String) (now : Int) (source : String) (userAgent : String) :
    ClickData :=
  { id := clickId
    timestamp := now
    source := source
    location := "Unknown"
    userAgent := userAgent }

/-- The effect of the two mutation lines `url.clicks.push(clickData)` and
`url.totalClicks = url.clicks.length` on one stored object. -/
def clickUpd (c : ClickData) (u : ShortenedUrl) : ShortenedUrl :=
  { u with clicks := u.clicks ++ [c], totalClicks := (u.clicks ++ [c]).length }

/-- The in-place mutations `url.clicks.push(clickData)` and
`url.totalClicks = url.clicks.length` on the stored object with key `k`. -/
def pushClick (st : RegistryState) (k : String) (c : ClickData) : RegistryState :=
  ⟨st.urls.map (fun p => if p.1 == k then (p.1, clickUpd c p.2) else p)⟩

/-- `recordClickAndRedirect(shortCode, source)`: delegates to
`getUrlByShortCode`; on `null` returns `null`, otherwise appends one click,
updates `totalClicks`, persists, and returns the mapping's `originalUrl`. -/
def recordClickAndRedirect (st : RegistryState) (shortCode : String)
    (source : String) (now : Int) (clickId : String) (userAgent : String) :
    Option String × RegistryState :=
  match getUrlEntryByShortCode st shortCode now with
  | (none, st') => (none, st')
  | (some (k, url), st') =>
    (some url.originalUrl, pushClick st' k (mkClick clickId now source userAgent))

/-- The `forEach` of `getAllUrls`: flag each stored mapping whose expiry has
passed (`new Date() > new Date(url.expiresAt)`). -/
def refreshExpired (now : Int) (u : ShortenedUrl) : ShortenedUrl :=
  if now > u.expiresAt then { u with isExpired := true } else u

/-- Stable insertion into a list sorted by `createdAt` descending. -/
def insertByCreatedDesc (u : ShortenedUrl) : List ShortenedUrl → List ShortenedUrl
  | [] => [u]
  | v :: vs =>
    if u.createdAt ≥ v.createdAt then u :: v :: vs else v :: insertByCreatedDesc u vs

/-- The `sort((a, b) => b.createdAt - a.createdAt)` of `getAllUrls`: a stable
sort by `createdAt` descending. -/
def sortByCreatedDesc : List ShortenedUrl → List ShortenedUrl
  | [] => []
  | u :: us => insertByCreatedDesc u (sortByCreatedDesc us)

/-- `getAllUrls()`: refreshes the `isExpired` cache of every stored mapping,
persists, and returns all mappings sorted by `createdAt` descending. -/
def getAllUrls (st : RegistryState) (now : Int) :
    List ShortenedUrl × RegistryState :=
  let st' : RegistryState := ⟨st.urls.map (fun p => (p.1, refreshExpired now p.2))⟩
  (sortByCreatedDesc (st'.urls.map (fun p => p.2)), st')

/-- `deleteUrl(id)`: `Map.prototype.delete` — removes the entry with that
key if present and reports whether a removal occurred. -/
def deleteUrl (st : RegistryState) (id : String) : Bool × RegistryState :=
  if st.urls.any (fun p => p.1 == id) then
    (true, ⟨st.urls.filter (fun p => !(p.1 == id))⟩)
  else
    (false, st)

/-- `clearAllData()`: removes every mapping. -/
def clearAllData (_st : RegistryState) : RegistryState := ⟨[]⟩

/-! ## Specification predicates and concrete fixtures -/

/-- The `i`-th (0-based) collision-checked 6-character draw of
`generateUniqueShortCode`: attempt `i` consumes stream positions
`6*i … 6*i+5`. -/
def draw6 (stream : Nat → Fin 62) (i : Nat) : String :=
  generateShortCode 6 stream (6 * i)

/-- No two stored mappings share a short code. -/
def codesDistinct (st : RegistryState) : Prop :=
  st.urls.Pairwise (fun p q => p.2.shortCode ≠ q.2.shortCode)

/-- The map keys are pairwise distinct (guaranteed by `Map` semantics). -/
def keysNodup (st : RegistryState) : Prop :=
  (st.urls.map Prod.fst).Nodup

/-- `st'` is `st` with the value at key `k` rewritten through `f` and every
other entry untouched (order and keys preserved). -/
def updatedAt (st st' : RegistryState) (k : String) (f : ShortenedUrl → ShortenedUrl) : Prop :=
  st'.urls = st.urls.map (fun p => if p.1 = k then (p.1, f p.2) else p)

/-- Every mapping stored in `st'` carries the click sequence of the mapping
stored under the same key in `st`: no click was added or removed anywhere. -/
def clicksPreservedFrom (st st' : RegistryState) : Prop :=
  ∀ p ∈ st'.urls, ∃ q ∈ st.urls, q.1 = p.1 ∧ q.2.clicks = p.2.clicks

/-- Every mapping stored in `st'` either carries the click sequence of the
mapping stored under the same key in `st`, or is newly created with an empty
click history: no existing click sequence grew. -/
def clicksPreservedOrNew (st st' : RegistryState) : Prop :=
  ∀ p ∈ st'.urls, (∃ q ∈ st.urls, q.1 = p.1 ∧ q.2.clicks = p.2.clicks) ∨ p.2.clicks = []

/-- The derived-counter invariant: `totalClicks = len(clicks)` everywhere. -/
def totalClicksInv (st : RegistryState) : Prop :=
  ∀ p ∈ st.urls, p.2.totalClicks = p.2.clicks.length

/-- The per-call environment of one `recordClickAndRedirect` invocation. -/
structure ClickCall where
  now : Int
  clickId : String
  source : String
  userAgent : String
  deriving Repr, DecidableEq

/-- A sequence of `recordClickAndRedirect` invocations on one short code,
collecting the returned values and threading the registry state. -/
def runClicks (code : String) : List ClickCall → RegistryState →
    List (Option String) × RegistryState
  | [], st => ([], st)
  | c :: cs, st =>
    let r := recordClickAndRedirect st code c.source c.now c.clickId c.userAgent
    let rest := runClicks code cs r.2
    (r.1 :: rest.1, rest.2)

/-- The click record a `ClickCall` produces. -/
def callClick (c : ClickCall) : ClickData :=
  mkClick c.clickId c.now c.source c.userAgent

/-- The empty registry. -/
def stEmpty : RegistryState := ⟨[]⟩

/-- The all-zero random stream: every draw is `'A'`. -/
def sAll0 : Nat → Fin 62 := fun _ => 0

/-- A URL validator accepting everything (concrete stand-in for the platform
URL parser in witnesses). -/
def vTrue : String → Bool := fun _ => true

/-- A concrete stored mapping used by witnesses. -/
def uFix : ShortenedUrl :=
  { id := "u1"
    originalUrl := "https://example.com/a"
    shortCode := "promo1"
    customCode := some "promo1"
    createdAt := 0
    expiresAt := 60000
    isExpired := false
    clicks := []
    totalClicks := 0 }

/-- A concrete one-mapping registry used by witnesses. -/
def stFix : RegistryState := ⟨[("u1", uFix)]⟩

/-- Two concrete `recordClickAndRedirect` invocations used by witnesses. -/
def wCalls : List ClickCall :=
  [⟨1000, "c1", "direct", "ua"⟩, ⟨2000, "c2", "qr", "ua"⟩]

/-- The mapping produced by creating `"AAAAAA"` as a custom code at time 0. -/
def cexU1 : ShortenedUrl :=
  { id := "id1"
    originalUrl := "https://a.example"
    shortCode := "AAAAAA"
    customCode := some "AAAAAA"
    createdAt := 0
    expiresAt := 1800000
    isExpired := false
    clicks := []
    totalClicks := 0 }

/-- The mapping produced by creating `"AAAAAAAA"` as a custom code at time 0. -/
def cexU2 : ShortenedUrl :=
  { cexU1 with id := "id2", shortCode := "AAAAAAAA", customCode := some "AAAAAAAA" }

/-- The mapping produced by the third, auto-generating create under the
all-zero stream: every 6-character draw is `"AAAAAA"` (taken), so the
8-character fallback `"AAAAAAAA"` is returned — which is also taken. -/
def cexU3 : ShortenedUrl :=
  { cexU1 with id := "id3", shortCode := "AAAAAAAA", customCode := none }

/-- Registry after the first counterexample create. -/
def cexSt1 : RegistryState := ⟨[("id1", cexU1)]⟩

/-- Registry after the second counterexample create. -/
def cexSt2 : RegistryState := ⟨[("id1", cexU1), ("id2", cexU2)]⟩

/-- Registry after the third counterexample create: two mappings now share
the code `"AAAAAAAA"`. -/
def cexSt3 : RegistryState := ⟨[("id1", cexU1), ("id2", cexU2), ("id3", cexU3)]⟩

end UrlService

/-! ## Helper lemmas -/

namespace UrlService

theorem length_generateShortCode (len : Nat) (stream : Nat → Fin 62) (start : Nat) :
    (generateShortCode len stream start).length = len := by
  simp [generateShortCode, String.length]

theorem drawChar_mem (d : Fin 62) : drawChar d ∈ charsList := by
  revert d; decide

theorem mem_charsList_generateShortCode (len : Nat) (stream : Nat → Fin 62) (start : Nat) :
    ∀ c ∈ (generateShortCode len stream start).data, c ∈ charsList := by
  intro c hc
  simp only [generateShortCode, String.mk, List.mem_map] at hc
  obtain ⟨i, -, rfl⟩ := hc
  exact drawChar_mem _

theorem genLoop_eq_of_first_free (taken : String → Bool) (stream : Nat → Fin 62) :
    ∀ (fuel : Nat) (pos j : Nat), j < fuel →
      (∀ i, i < j → taken (generateShortCode 6 stream (pos + 6 * i)) = true) →
      taken (generateShortCode 6 stream (pos + 6 * j)) = false →
      genLoop taken stream fuel pos = generateShortCode 6 stream (pos + 6 * j) := by
  intro fuel
  induction fuel with
  | zero => intro pos j hj; omega
  | succ n ih =>
    intro pos j hj hbefore hfree
    rcases Nat.eq_zero_or_pos j with rfl | hjpos
    · simp only [genLoop]
      rw [show pos + 6 * 0 = pos by omega] at hfree
      simp [hfree]
    · obtain ⟨j', rfl⟩ : ∃ j', j = j' + 1 := ⟨j - 1, by omega⟩
      have h0 : taken (generateShortCode 6 stream (pos + 6 * 0)) = true :=
        hbefore 0 (by omega)
      rw [show pos + 6 * 0 = pos by omega] at h0
      simp only [genLoop, h0, if_true]
      have := ih (pos + 6) j' (by omega)
        (fun i hi => by
          have := hbefore (i + 1) (by omega)
          rw [show pos + 6 * (i + 1) = pos + 6 + 6 * i by omega] at this
          exact this)
        (by rw [show pos + 6 + 6 * j' = pos + 6 * (j' + 1) by omega]; exact hfree)
      rw [this, show pos + 6 + 6 * j' = pos + 6 * (j' + 1) by omega]

theorem genLoop_eq_of_all_taken (taken : String → Bool) (stream : Nat → Fin 62) :
    ∀ (fuel : Nat) (pos : Nat),
      (∀ i, i < fuel → taken (generateShortCode 6 stream (pos + 6 * i)) = true) →
      genLoop taken stream fuel pos = generateShortCode 8 stream (pos + 6 * fuel + 6) := by
  intro fuel
  induction fuel with
  | zero => intro pos _; simp [genLoop]
  | succ n ih =>
    intro pos h
    have h0 : taken (generateShortCode 6 stream pos) = true := by
      have := h 0 (by omega); rwa [show pos + 6 * 0 = pos by omega] at this
    simp only [genLoop, h0, if_true]
    have := ih (pos + 6) (fun i hi => by
      have := h (i + 1) (by omega)
      rwa [show pos + 6 * (i + 1) = pos + 6 + 6 * i by omega] at this)
    rw [this, show pos + 6 + 6 * n + 6 = pos + 6 * (n + 1) + 6 by omega]

theorem genLoop_not_taken (taken : String → Bool) (stream : Nat → Fin 62) :
    ∀ (fuel : Nat) (pos : Nat),
      (∃ i, i < fuel ∧ taken (generateShortCode 6 stream (pos + 6 * i)) = false) →
      taken (genLoop taken stream fuel pos) = false := by
  intro fuel
  induction fuel with
  | zero => intro pos ⟨i, hi, _⟩; omega
  | succ n ih =>
    intro pos ⟨i, hi, hfree⟩
    by_cases h0 : taken (generateShortCode 6 stream pos) = true
    · simp only [genLoop, h0, if_true]
      apply ih
      rcases Nat.eq_zero_or_pos i with rfl | hipos
      · rw [show pos + 6 * 0 = pos by omega] at hfree
        rw [h0] at hfree; cases hfree
      · exact ⟨i - 1, by omega, by
          rwa [show pos + 6 + 6 * (i - 1) = pos + 6 * i by omega]⟩
    · simp only [Bool.not_eq_true] at h0
      simp only [genLoop, h0]
      simpa using h0

end UrlService

namespace UrlService

theorem find?_code_pushClick (code : String) (c : ClickData) :
    ∀ (l : List (String × ShortenedUrl)) (k : String) (url : ShortenedUrl),
      (l.map Prod.fst).Nodup →
      l.find? (fun p => p.2.shortCode == code) = some (k, url) →
      (l.map (fun p => if p.1 == k then (p.1, clickUpd c p.2) else p)).find?
          (fun p => p.2.shortCode == code) = some (k, clickUpd c url) := by
  intro l
  induction l with
  | nil => intro k url _ h; simp at h
  | cons p l ih =>
    intro k url hnd h
    simp only [List.map_cons, List.nodup_cons] at hnd
    by_cases hp : (p.2.shortCode == code) = true
    · rw [List.find?_cons_of_pos (p := fun (q : String × ShortenedUrl) => q.2.shortCode == code) _ hp] at h
      injection h with h
      subst h
      have hc : ((clickUpd c url).shortCode == code) = true := by
        simpa [clickUpd] using hp
      simp only [List.map_cons, beq_self_eq_true, if_true]
      exact List.find?_cons_of_pos (p := fun (q : String × ShortenedUrl) => q.2.shortCode == code) _ hc
    · rw [List.find?_cons_of_neg (p := fun (q : String × ShortenedUrl) => q.2.shortCode == code) _ hp] at h
      have hkmem : k ∈ l.map Prod.fst := by
        have := List.mem_of_find?_eq_some h
        exact List.mem_map_of_mem Prod.fst this
      have hpk : ¬ ((p.1 == k) = true) := by
        intro hb
        exact hnd.1 (by rwa [← eq_of_beq hb] at hkmem)
      simp only [List.map_cons, if_neg hpk]
      rw [List.find?_cons_of_neg (p := fun (q : String × ShortenedUrl) => q.2.shortCode == code) _ hp]
      exact ih k url hnd.2 h

end UrlService
namespace UrlService

theorem updatedAt_markExpired (st : RegistryState) (k : String) :
    updatedAt st (markExpired st k) k (fun u => { u with isExpired := true }) := by
  simp only [updatedAt, markExpired]
  apply List.map_congr_left
  intro p _
  by_cases h : p.1 = k <;> simp [h]

theorem updatedAt_pushClick (st : RegistryState) (k : String) (c : ClickData) :
    updatedAt st (pushClick st k c) k (clickUpd c) := by
  simp only [updatedAt, pushClick]
  apply List.map_congr_left
  intro p _
  by_cases h : p.1 = k <;> simp [h]

theorem keys_pushClick (st : RegistryState) (k : String) (c : ClickData) :
    (pushClick st k c).urls.map Prod.fst = st.urls.map Prod.fst := by
  simp only [pushClick, List.map_map]
  apply List.map_congr_left
  intro p _
  by_cases h : p.1 = k <;> simp [h, Function.comp]

theorem perm_insertByCreatedDesc (u : ShortenedUrl) :
    ∀ l : List ShortenedUrl, (insertByCreatedDesc u l).Perm (u :: l) := by
  intro l
  induction l with
  | nil => simp [insertByCreatedDesc]
  | cons v vs ih =>
    by_cases h : u.createdAt ≥ v.createdAt
    · simp [insertByCreatedDesc, h]
    · simp only [insertByCreatedDesc, if_neg h]
      exact (List.Perm.cons v ih).trans (List.Perm.swap u v vs)

theorem perm_sortByCreatedDesc :
    ∀ l : List ShortenedUrl, (sortByCreatedDesc l).Perm l := by
  intro l
  induction l with
  | nil => simp [sortByCreatedDesc]
  | cons u us ih =>
    exact (perm_insertByCreatedDesc u _).trans (List.Perm.cons u ih)

theorem pairwise_insertByCreatedDesc (u : ShortenedUrl) :
    ∀ l : List ShortenedUrl,
      l.Pairwise (fun a b => b.createdAt ≤ a.createdAt) →
      (insertByCreatedDesc u l).Pairwise (fun a b => b.createdAt ≤ a.createdAt) := by
  intro l
  induction l with
  | nil => intro _; simp [insertByCreatedDesc]
  | cons v vs ih =>
    intro hp
    rw [List.pairwise_cons] at hp
    by_cases h : u.createdAt ≥ v.createdAt
    · simp only [insertByCreatedDesc, if_pos h]
      rw [List.pairwise_cons]
      refine ⟨?_, List.pairwise_cons.mpr hp⟩
      intro w hw
      rw [List.mem_cons] at hw
      rcases hw with rfl | hw
      · exact h
      · exact le_trans (hp.1 w hw) h
    · simp only [insertByCreatedDesc, if_neg h]
      rw [List.pairwise_cons]
      refine ⟨?_, ih hp.2⟩
      intro w hw
      have hm : w ∈ u :: vs := (perm_insertByCreatedDesc u vs).mem_iff.mp hw
      rw [List.mem_cons] at hm
      rcases hm with rfl | hm
      · omega
      · exact hp.1 w hm

theorem pairwise_sortByCreatedDesc :
    ∀ l : List ShortenedUrl,
      (sortByCreatedDesc l).Pairwise (fun a b => b.createdAt ≤ a.createdAt) := by
  intro l
  induction l with
  | nil => simp [sortByCreatedDesc]
  | cons u us ih => exact pairwise_insertByCreatedDesc u _ ih

end UrlService

namespace UrlService

theorem getUrlEntry_none (st : RegistryState) (code : String) (now : Int)
    (h : st.urls.find? (fun p => p.2.shortCode == code) = none) :
    getUrlEntryByShortCode st code now = (none, st) := by
  simp [getUrlEntryByShortCode, h]

theorem getUrlEntry_expired (st : RegistryState) (code : String) (now : Int)
    (k : String) (url : ShortenedUrl)
    (h : st.urls.find? (fun p => p.2.shortCode == code) = some (k, url))
    (hx : now > url.expiresAt) :
    getUrlEntryByShortCode st code now = (none, markExpired st k) := by
  simp [getUrlEntryByShortCode, h, hx]

theorem getUrlEntry_live (st : RegistryState) (code : String) (now : Int)
    (k : String) (url : ShortenedUrl)
    (h : st.urls.find? (fun p => p.2.shortCode == code) = some (k, url))
    (hx : ¬ now > url.expiresAt) :
    getUrlEntryByShortCode st code now = (some (k, url), st) := by
  simp [getUrlEntryByShortCode, h, hx]

theorem recordClick_live (st : RegistryState) (code source : String) (now : Int)
    (cid ua : String) (k : String) (url : ShortenedUrl)
    (h : st.urls.find? (fun p => p.2.shortCode == code) = some (k, url))
    (hx : ¬ now > url.expiresAt) :
    recordClickAndRedirect st code source now cid ua
      = (some url.originalUrl, pushClick st k (mkClick cid now source ua)) := by
  simp [recordClickAndRedirect, getUrlEntry_live st code now k url h hx]

theorem clicksPreservedFrom_map (st : RegistryState)
    (f : String × ShortenedUrl → String × ShortenedUrl)
    (hf : ∀ p ∈ st.urls, (f p).1 = p.1 ∧ (f p).2.clicks = p.2.clicks) :
    clicksPreservedFrom st ⟨st.urls.map f⟩ := by
  intro p hp
  rw [List.mem_map] at hp
  obtain ⟨q, hq, rfl⟩ := hp
  exact ⟨q, hq, (hf q hq).1.symm, (hf q hq).2.symm⟩

theorem clicksPreservedFrom_markExpired (st : RegistryState) (k : String) :
    clicksPreservedFrom st (markExpired st k) := by
  apply clicksPreservedFrom_map
  intro p _
  by_cases h : (p.1 == k) = true <;> simp [markExpired, h]

theorem clicksPreservedFrom_lookup (st : RegistryState) (code : String) (now : Int) :
    clicksPreservedFrom st (getUrlByShortCode st code now).2 := by
  rcases hf : st.urls.find? (fun p => p.2.shortCode == code) with - | ⟨k, url⟩
  · rw [getUrlByShortCode, getUrlEntry_none st code now hf]
    intro p hp; exact ⟨p, hp, rfl, rfl⟩
  · by_cases hx : now > url.expiresAt
    · rw [getUrlByShortCode, getUrlEntry_expired st code now k url hf hx]
      exact clicksPreservedFrom_markExpired st k
    · rw [getUrlByShortCode, getUrlEntry_live st code now k url hf hx]
      intro p hp; exact ⟨p, hp, rfl, rfl⟩

theorem clicksPreservedFrom_getAllUrls (st : RegistryState) (now : Int) :
    clicksPreservedFrom st (getAllUrls st now).2 := by
  apply clicksPreservedFrom_map
  intro p _
  refine ⟨rfl, ?_⟩
  by_cases h : now > p.2.expiresAt <;> simp [refreshExpired, h]

theorem clicksPreservedFrom_deleteUrl (st : RegistryState) (id : String) :
    clicksPreservedFrom st (deleteUrl st id).2 := by
  rw [deleteUrl]
  split
  · intro p hp
    refine ⟨p, ?_, rfl, rfl⟩
    exact List.mem_of_mem_filter hp
  · intro p hp
    exact ⟨p, hp, rfl, rfl⟩

theorem clicksPreservedFrom_clear (st : RegistryState) :
    clicksPreservedFrom st (clearAllData st) := by
  intro p hp
  simp [clearAllData] at hp

theorem mkCreated_fst (st : RegistryState) (req : CreateUrlRequest) (now : Int)
    (freshId code : String) :
    (mkCreated st req now freshId code).1
      = { id := freshId
          originalUrl := req.originalUrl
          shortCode := code
          customCode := req.customShortCode
          createdAt := now
          expiresAt := now +
            (match req.validityMinutes with
             | none => 30
             | some m => if m = 0 then 30 else m) * 60 * 1000
          isExpired := false
          clicks := []
          totalClicks := 0 } := rfl

theorem create_ok_inv (validUrl : String → Bool) (st : RegistryState)
    (req : CreateUrlRequest) (now : Int) (stream : Nat → Fin 62) (freshId : String)
    (url : ShortenedUrl) (st' : RegistryState)
    (h : createShortenedUrl validUrl st req now stream freshId = .ok (url, st')) :
    validUrl req.originalUrl = true ∧
    url = (mkCreated st req now freshId url.shortCode).1 ∧
    st' = mapSet st freshId url ∧
    ((optTruthy req.customShortCode = true ∧
        url.shortCode = req.customShortCode.getD "" ∧
        isValidShortCode url.shortCode = true ∧
        isShortCodeTaken st url.shortCode = false) ∨
      (optTruthy req.customShortCode = false ∧
        url.shortCode = generateUniqueShortCode (isShortCodeTaken st) stream)) := by
  unfold createShortenedUrl at h
  split at h
  · cases h
  · next h1 =>
    split at h
    · next h2 =>
      dsimp only [] at h
      split at h
      · cases h
      · next h3 =>
        split at h
        · cases h
        · next h4 =>
          injection h with h
          have hu : url = (mkCreated st req now freshId (req.customShortCode.getD "")).1 :=
            (congrArg Prod.fst h).symm
          have hst' : st' = (mkCreated st req now freshId (req.customShortCode.getD "")).2 :=
            (congrArg Prod.snd h).symm
          have hcode : url.shortCode = req.customShortCode.getD "" := by
            rw [hu]; rfl
          refine ⟨by simpa using h1, ?_, ?_, .inl ⟨h2, hcode, ?_, ?_⟩⟩
          · rw [hcode]; exact hu
          · rw [hst', hu]; rfl
          · rw [hcode]; simpa using h3
          · rw [hcode]; simpa using h4
    · next h2 =>
      injection h with h
      have hu : url = (mkCreated st req now freshId
          (generateUniqueShortCode (isShortCodeTaken st) stream)).1 :=
        (congrArg Prod.fst h).symm
      have hst' : st' = (mkCreated st req now freshId
          (generateUniqueShortCode (isShortCodeTaken st) stream)).2 :=
        (congrArg Prod.snd h).symm
      have hcode : url.shortCode = generateUniqueShortCode (isShortCodeTaken st) stream := by
        rw [hu]; rfl
      refine ⟨by simpa using h1, ?_, ?_, .inr ⟨by simpa using h2, hcode⟩⟩
      · rw [hcode]; exact hu
      · rw [hst', hu]; rfl

theorem clicksPreservedOrNew_create (validUrl : String → Bool) (st : RegistryState)
    (req : CreateUrlRequest) (now : Int) (stream : Nat → Fin 62) (freshId : String)
    (url : ShortenedUrl) (st' : RegistryState)
    (h : createShortenedUrl validUrl st req now stream freshId = .ok (url, st')) :
    clicksPreservedOrNew st st' := by
  obtain ⟨-, hu, hst', -⟩ := create_ok_inv validUrl st req now stream freshId url st' h
  have hclicks : url.clicks = [] := by rw [hu]; rfl
  subst hst'
  rw [mapSet]
  split
  · intro p hp
    rw [List.mem_map] at hp
    obtain ⟨q, hq, rfl⟩ := hp
    by_cases hk : (q.1 == freshId) = true
    · right; simp [hk, hclicks]
    · left; exact ⟨q, hq, by simp [hk], by simp [hk]⟩
  · intro p hp
    rw [List.mem_append] at hp
    rcases hp with hp | hp
    · left; exact ⟨p, hp, rfl, rfl⟩
    · right
      rw [List.mem_singleton] at hp
      subst hp
      exact hclicks

end UrlService

namespace UrlService

theorem totalClicksInv_map (st : RegistryState)
    (f : String × ShortenedUrl → String × ShortenedUrl)
    (hinv : totalClicksInv st)
    (hf : ∀ p ∈ st.urls, (f p).2.totalClicks = (f p).2.clicks.length ∨
      ((f p).2.totalClicks = p.2.totalClicks ∧ (f p).2.clicks = p.2.clicks)) :
    totalClicksInv ⟨st.urls.map f⟩ := by
  intro p hp
  rw [List.mem_map] at hp
  obtain ⟨q, hq, rfl⟩ := hp
  rcases hf q hq with h | ⟨h1, h2⟩
  · exact h
  · rw [h1, h2]; exact hinv q hq

theorem totalClicksInv_markExpired (st : RegistryState) (k : String)
    (hinv : totalClicksInv st) : totalClicksInv (markExpired st k) := by
  apply totalClicksInv_map st _ hinv
  intro p _
  right
  by_cases h : (p.1 == k) = true <;> simp [h]

theorem totalClicksInv_lookup (st : RegistryState) (code : String) (now : Int)
    (hinv : totalClicksInv st) : totalClicksInv (getUrlByShortCode st code now).2 := by
  rcases hf : st.urls.find? (fun p => p.2.shortCode == code) with - | ⟨k, url⟩
  · rw [getUrlByShortCode, getUrlEntry_none st code now hf]
    exact hinv
  · by_cases hx : now > url.expiresAt
    · rw [getUrlByShortCode, getUrlEntry_expired st code now k url hf hx]
      exact totalClicksInv_markExpired st k hinv
    · rw [getUrlByShortCode, getUrlEntry_live st code now k url hf hx]
      exact hinv

theorem totalClicksInv_pushClick (st : RegistryState) (k : String) (c : ClickData)
    (hinv : totalClicksInv st) : totalClicksInv (pushClick st k c) := by
  apply totalClicksInv_map st _ hinv
  intro p _
  by_cases h : (p.1 == k) = true
  · left; simp [h, clickUpd]
  · right; simp [h]

theorem totalClicksInv_record (st : RegistryState) (code source : String) (now : Int)
    (cid ua : String) (hinv : totalClicksInv st) :
    totalClicksInv (recordClickAndRedirect st code source now cid ua).2 := by
  rcases hf : st.urls.find? (fun p => p.2.shortCode == code) with - | ⟨k, url⟩
  · rw [recordClickAndRedirect, getUrlEntry_none st code now hf]
    exact hinv
  · by_cases hx : now > url.expiresAt
    · rw [recordClickAndRedirect, getUrlEntry_expired st code now k url hf hx]
      exact totalClicksInv_markExpired st k hinv
    · rw [recordClick_live st code source now cid ua k url hf hx]
      exact totalClicksInv_pushClick st k _ hinv

theorem totalClicksInv_getAllUrls (st : RegistryState) (now : Int)
    (hinv : totalClicksInv st) : totalClicksInv (getAllUrls st now).2 := by
  apply totalClicksInv_map st _ hinv
  intro p _
  right
  by_cases h : now > p.2.expiresAt <;> simp [refreshExpired, h]

theorem totalClicksInv_deleteUrl (st : RegistryState) (id : String)
    (hinv : totalClicksInv st) : totalClicksInv (deleteUrl st id).2 := by
  rw [deleteUrl]
  split
  · intro p hp
    exact hinv p (List.mem_of_mem_filter hp)
  · exact hinv

theorem totalClicksInv_clear (st : RegistryState) :
    totalClicksInv (clearAllData st) := by
  intro p hp
  simp [clearAllData] at hp

theorem totalClicksInv_create (validUrl : String → Bool) (st : RegistryState)
    (req : CreateUrlRequest) (now : Int) (stream : Nat → Fin 62) (freshId : String)
    (url : ShortenedUrl) (st' : RegistryState)
    (h : createShortenedUrl validUrl st req now stream freshId = .ok (url, st'))
    (hinv : totalClicksInv st) : totalClicksInv st' := by
  obtain ⟨-, hu, hst', -⟩ := create_ok_inv validUrl st req now stream freshId url st' h
  have hurl : url.totalClicks = url.clicks.length := by rw [hu]; rfl
  subst hst'
  rw [mapSet]
  split
  · apply totalClicksInv_map st _ hinv
    intro p _
    by_cases hk : (p.1 == freshId) = true
    · left; simp [hk, hurl]
    · right; simp [hk]
  · intro p hp
    rw [List.mem_append] at hp
    rcases hp with hp | hp
    · exact hinv p hp
    · rw [List.mem_singleton] at hp
      subst hp
      exact hurl

theorem runClicks_spec (code : String) :
    ∀ (calls : List ClickCall) (st : RegistryState) (k : String) (url : ShortenedUrl),
      keysNodup st →
      st.urls.find? (fun p => p.2.shortCode == code) = some (k, url) →
      url.totalClicks = url.clicks.length →
      (∀ c ∈ calls, ¬ (c.now > url.expiresAt)) →
      (runClicks code calls st).1 = calls.map (fun _ => some url.originalUrl) ∧
      (runClicks code calls st).2.urls.find? (fun p => p.2.shortCode == code)
        = some (k, { url with
            clicks := url.clicks ++ calls.map callClick
            totalClicks := url.clicks.length + calls.length }) ∧
      keysNodup (runClicks code calls st).2 := by
  intro calls
  induction calls with
  | nil =>
    intro st k url hnd hf hinv _
    refine ⟨rfl, ?_, hnd⟩
    rw [runClicks]
    have he : ({ url with
        clicks := url.clicks ++ List.map callClick [],
        totalClicks := url.clicks.length + ([] : List ClickCall).length } : ShortenedUrl)
        = url := by
      obtain ⟨i, o, s, cc, ca, e, ie, cl, tc⟩ := url
      simp at hinv ⊢
      omega
    rw [he]
    exact hf
  | cons c cs ih =>
    intro st k url hnd hf hinv hlive
    have hlc : ¬ (c.now > url.expiresAt) := hlive c (List.mem_cons_self c cs)
    have hrec := recordClick_live st code c.source c.now c.clickId c.userAgent k url hf hlc
    have hf1 := find?_code_pushClick code (callClick c) st.urls k url hnd hf
    have hnd1 : keysNodup (pushClick st k (callClick c)) := by
      rw [keysNodup, keys_pushClick]
      exact hnd
    have hinv1 : (clickUpd (callClick c) url).totalClicks
        = (clickUpd (callClick c) url).clicks.length := rfl
    have hlive1 : ∀ c' ∈ cs, ¬ (c'.now > (clickUpd (callClick c) url).expiresAt) := by
      intro c' hc'
      exact hlive c' (List.mem_cons_of_mem c hc')
    obtain ⟨ihres, ihfind, ihnd⟩ :=
      ih (pushClick st k (callClick c)) k (clickUpd (callClick c) url) hnd1 hf1 hinv1 hlive1
    rw [runClicks]
    have hr : recordClickAndRedirect st code c.source c.now c.clickId c.userAgent
        = (some url.originalUrl, pushClick st k (callClick c)) := hrec
    rw [hr]
    refine ⟨?_, ?_, ihnd⟩
    · simp only [List.map_cons]
      rw [ihres]
      rfl
    · rw [ihfind]
      congr 2
      obtain ⟨i, o, s, cc, ca, e, ie, cl, tc⟩ := url
      simp [clickUpd]
      omega

end UrlService

namespace UrlService

/-- C3: when create must auto-generate a code, it draws 6-character codes
over the 62-character alphanumeric alphabet (each draw an arbitrary value of
the uniform `⌊random·62⌋ ∈ Fin 62`), retrying while the draw collides with an
existing code for up to 100 attempts; if still colliding after 100 attempts
it draws exactly one 8-character code and accepts it unconditionally, with no
collision check on that fallback draw. -/
theorem c3_generation_policy (taken : String → Bool) (stream : Nat → Fin 62) :
    (charsList.length = 62 ∧ charsList.Nodup) ∧
    (∀ len start, (generateShortCode len stream start).length = len ∧
      ∀ c ∈ (generateShortCode len stream start).data, c ∈ charsList) ∧
    (∀ j, j < 100 → (∀ i, i < j → taken (draw6 stream i) = true) →
      taken (draw6 stream j) = false →
      generateUniqueShortCode taken stream = draw6 stream j ∧
      (generateUniqueShortCode taken stream).length = 6 ∧
      taken (generateUniqueShortCode taken stream) = false) ∧
    ((∀ i, i < 100 → taken (draw6 stream i) = true) →
      generateUniqueShortCode taken stream = generateShortCode 8 stream 606 ∧
      (generateUniqueShortCode taken stream).length = 8) := by
  refine ⟨⟨by decide, by decide⟩,
    fun len start => ⟨length_generateShortCode len stream start,
      mem_charsList_generateShortCode len stream start⟩, ?_, ?_⟩
  · intro j hj hb hfree
    have hb' : ∀ i, i < j → taken (generateShortCode 6 stream (0 + 6 * i)) = true := by
      intro i hi
      rw [Nat.zero_add]
      exact hb i hi
    have hfree' : taken (generateShortCode 6 stream (0 + 6 * j)) = false := by
      rw [Nat.zero_add]
      exact hfree
    have heq := genLoop_eq_of_first_free taken stream 100 0 j hj hb' hfree'
    rw [Nat.zero_add] at heq
    rw [generateUniqueShortCode, heq]
    exact ⟨rfl, length_generateShortCode 6 stream (6 * j), hfree⟩
  · intro hall
    have hall' : ∀ i, i < 100 → taken (generateShortCode 6 stream (0 + 6 * i)) = true := by
      intro i hi
      rw [Nat.zero_add]
      exact hall i hi
    have heq := genLoop_eq_of_all_taken taken stream 100 0 hall'
    rw [generateUniqueShortCode, heq]
    exact ⟨rfl, length_generateShortCode 8 stream (0 + 6 * 100 + 6)⟩

/-- Witness for C3: with no code taken the first 6-character draw is
returned; when every 6-character string is taken, the 8-character fallback
is returned (and with the all-zero stream it is `"AAAAAAAA"`). -/
theorem c3_generation_policy_witness :
    generateUniqueShortCode (fun _ => false) sAll0 = "AAAAAA" ∧
    generateUniqueShortCode (fun s => decide (s.length = 6)) sAll0 = "AAAAAAAA" := by
  constructor
  · have h := (c3_generation_policy (fun _ => false) sAll0).2.2.1 0 (by omega)
      (fun i hi => absurd hi (by omega)) rfl
    rw [h.1]
    decide
  · have h := (c3_generation_policy (fun s => decide (s.length = 6)) sAll0).2.2.2
      (by decide)
    rw [h.1]
    decide

/-- C1 fails on the code: after creating mappings with codes `"AAAAAA"` and
`"AAAAAAAA"`, a third create without a custom code, under a random stream
whose every draw is `'A'`, exhausts the 100 collision-checked attempts and
returns the unchecked 8-character fallback `"AAAAAAAA"` — a code an existing
stored mapping already holds, so two stored mappings now share a code. -/
theorem c1_counterexample :
    createShortenedUrl vTrue stEmpty ⟨"https://a.example", none, some "AAAAAA"⟩ 0 sAll0 "id1"
      = .ok (cexU1, cexSt1) ∧
    createShortenedUrl vTrue cexSt1 ⟨"https://a.example", none, some "AAAAAAAA"⟩ 0 sAll0 "id2"
      = .ok (cexU2, cexSt2) ∧
    createShortenedUrl vTrue cexSt2 ⟨"https://a.example", none, none⟩ 0 sAll0 "id3"
      = .ok (cexU3, cexSt3) ∧
    cexU3.shortCode = "AAAAAAAA" ∧
    isShortCodeTaken cexSt2 cexU3.shortCode = true ∧
    ¬ codesDistinct cexSt3 := by
  refine ⟨rfl, rfl, rfl, rfl, rfl, ?_⟩
  intro h
  simp only [codesDistinct, cexSt3, List.pairwise_cons] at h
  exact h.2.1 ("id3", cexU3) (by decide) (by decide)

end UrlService

namespace UrlService

/-- C1 (amended): every returned `shortCode` is distinct from the code of
every mapping still stored — provided the code was caller-supplied, or the
auto-generation found a collision-free draw within its 100 checked attempts.
(The unconditional 8-character fallback after 100 collisions carries no such
guarantee, see the counterexample.)  The no-two-stored-mappings-share-a-code
invariant is then preserved when the fresh id is new. -/
theorem c1_uniqueness_amended (validUrl : String → Bool) (st : RegistryState)
    (req : CreateUrlRequest) (now : Int) (stream : Nat → Fin 62) (freshId : String)
    (url : ShortenedUrl) (st' : RegistryState)
    (h : createShortenedUrl validUrl st req now stream freshId = .ok (url, st'))
    (hgen : optTruthy req.customShortCode = true ∨
      ∃ i, i < 100 ∧ isShortCodeTaken st (draw6 stream i) = false) :
    isShortCodeTaken st url.shortCode = false ∧
    ((∀ p ∈ st.urls, p.1 ≠ freshId) → codesDistinct st → codesDistinct st') := by
  obtain ⟨-, hu, hst', hbranch⟩ := create_ok_inv validUrl st req now stream freshId url st' h
  have hfree : isShortCodeTaken st url.shortCode = false := by
    rcases hbranch with ⟨-, -, -, htaken⟩ | ⟨hfalse, hcode⟩
    · exact htaken
    · rcases hgen with hg | ⟨i, hi, hfr⟩
      · rw [hfalse] at hg; cases hg
      · rw [hcode, generateUniqueShortCode]
        apply genLoop_not_taken
        refine ⟨i, hi, ?_⟩
        rw [Nat.zero_add]
        exact hfr
  refine ⟨hfree, ?_⟩
  intro hfresh hdist
  subst hst'
  rw [mapSet]
  split
  · next hany =>
    exfalso
    rw [List.any_eq_true] at hany
    obtain ⟨p, hp, hpk⟩ := hany
    exact hfresh p hp (eq_of_beq hpk)
  · rw [codesDistinct, List.pairwise_append]
    refine ⟨hdist, List.pairwise_singleton _ _, ?_⟩
    intro p hp q hq
    rw [List.mem_singleton] at hq
    subst hq
    intro hcontra
    rw [isShortCodeTaken, List.any_eq_false] at hfree
    exact hfree p hp (by simpa using hcontra)

/-- Witness for C1 (amended): creating `"promo1"` as a custom code in the
empty registry returns a code no stored mapping holds, and preserves code
distinctness. -/
theorem c1_uniqueness_amended_witness :
    isShortCodeTaken stEmpty uFix.shortCode = false ∧
    ((∀ p ∈ stEmpty.urls, p.1 ≠ "u1") → codesDistinct stEmpty → codesDistinct stFix) :=
  c1_uniqueness_amended vTrue stEmpty ⟨"https://example.com/a", some 1, some "promo1"⟩
    0 sAll0 "u1" uFix stFix rfl (.inl (by decide))

/-- C2 fails on the code: a create with `validityMinutes = 0` succeeds but
yields `expiresAt = createdAt + 30 minutes`, not `createdAt + 0 minutes` —
`request.validityMinutes || 30` treats the supplied `0` as absent. -/
theorem c2_counterexample :
    ((createShortenedUrl vTrue stEmpty ⟨"https://example.com/a", some 0, none⟩ 0 sAll0
        "z0").toOption.map (fun r => (r.1.createdAt, r.1.expiresAt)))
      = some (0, 1800000) ∧
    (1800000 : Int) ≠ 0 + 0 * 60 * 1000 := by
  exact ⟨rfl, by decide⟩

/-- C2 (amended): for every successful create, `createdAt = now`; if
`validityMinutes` is absent **or zero** the validity defaults to 30 minutes;
for every supplied nonzero duration `m`, `expiresAt = createdAt + m` minutes
exactly. -/
theorem c2_validity_amended (validUrl : String → Bool) (st : RegistryState)
    (req : CreateUrlRequest) (now : Int) (stream : Nat → Fin 62) (freshId : String)
    (url : ShortenedUrl) (st' : RegistryState)
    (h : createShortenedUrl validUrl st req now stream freshId = .ok (url, st')) :
    url.createdAt = now ∧
    ((req.validityMinutes = none ∨ req.validityMinutes = some 0) →
      url.expiresAt = now + 30 * 60 * 1000) ∧
    (∀ m, req.validityMinutes = some m → m ≠ 0 →
      url.expiresAt = now + m * 60 * 1000) := by
  obtain ⟨-, hu, -, -⟩ := create_ok_inv validUrl st req now stream freshId url st' h
  refine ⟨by rw [hu]; rfl, ?_, ?_⟩
  · intro hm
    rw [hu, mkCreated_fst]
    rcases hm with hm | hm
    · simp [hm]
    · simp [hm]
  · intro m hm hm0
    rw [hu, mkCreated_fst, hm]
    simp [hm0]

/-- Witness for C2 (amended): the create that builds `uFix` (one minute of
validity) has `createdAt = 0` and `expiresAt = 60000`. -/
theorem c2_validity_amended_witness :
    uFix.createdAt = 0 ∧
    ((some (1 : Int) = none ∨ some (1 : Int) = some 0) →
      uFix.expiresAt = 0 + 30 * 60 * 1000) ∧
    (∀ m : Int, some (1 : Int) = some m → m ≠ 0 →
      uFix.expiresAt = 0 + m * 60 * 1000) :=
  c2_validity_amended vTrue stEmpty ⟨"https://example.com/a", some 1, some "promo1"⟩
    0 sAll0 "u1" uFix stFix rfl

end UrlService

namespace UrlService

theorem isValidShortCode_ne_empty (s : String) (h : isValidShortCode s = true) :
    s ≠ "" := by
  intro heq
  subst heq
  simp [isValidShortCode] at h

theorem create_custom_ok (validUrl : String → Bool) (st : RegistryState)
    (origUrl : String) (vm : Option Int) (s : String) (now : Int)
    (stream : Nat → Fin 62) (freshId : String)
    (hv : validUrl origUrl = true) (hval : isValidShortCode s = true)
    (htaken : isShortCodeTaken st s = false) :
    createShortenedUrl validUrl st ⟨origUrl, vm, some s⟩ now stream freshId
      = .ok (mkCreated st ⟨origUrl, vm, some s⟩ now freshId s) := by
  have hs : s ≠ "" := isValidShortCode_ne_empty s hval
  unfold createShortenedUrl
  have ht : optTruthy (some s) = true := by simp [optTruthy, hs]
  simp [hv, ht, hval, htaken]

/-- C4 fails on the code as stated: the empty string is a supplied
`customShortCode` that does not match `^[A-Za-z0-9]{1,20}$`, yet the create
succeeds (auto-generating a code) instead of failing with `InvalidShortCode`,
because the JS truthiness test treats `""` like an absent code. -/
theorem c4_counterexample :
    isValidShortCode "" = false ∧
    ((createShortenedUrl vTrue stEmpty ⟨"https://example.com/a", some 1, some ""⟩ 0 sAll0
        "e1").toOption.map (fun r => (r.1.shortCode, r.1.customCode)))
      = some ("AAAAAA", some "") ∧
    (createShortenedUrl vTrue stEmpty ⟨"https://example.com/a", some 1, some ""⟩ 0 sAll0
        "e1").toOption.isSome = true :=
  ⟨rfl, rfl, rfl⟩

/-- C4 (amended): for every create request with a supplied **nonempty**
`customShortCode` (an empty string is treated as if no custom code were
supplied): a code not matching `^[A-Za-z0-9]{1,20}$` fails with
`InvalidShortCode`; a matching but already-stored code fails with
`ShortCodeTaken` and never silently substitutes an auto-generated code; a
matching unused code is returned verbatim as the mapping's `shortCode`. -/
theorem c4_custom_code_amended (validUrl : String → Bool) (st : RegistryState)
    (req : CreateUrlRequest) (now : Int) (stream : Nat → Fin 62) (freshId : String)
    (s : String) (hc : req.customShortCode = some s) (hs : s ≠ "")
    (hv : validUrl req.originalUrl = true) :
    (isValidShortCode s = false →
      createShortenedUrl validUrl st req now stream freshId
        = .error .invalidShortCode) ∧
    (isValidShortCode s = true → isShortCodeTaken st s = true →
      createShortenedUrl validUrl st req now stream freshId
        = .error .shortCodeTaken) ∧
    (isValidShortCode s = true → isShortCodeTaken st s = false →
      ∃ url st', createShortenedUrl validUrl st req now stream freshId
        = .ok (url, st') ∧ url.shortCode = s) := by
  have ht : optTruthy (some s) = true := by simp [optTruthy, hs]
  refine ⟨?_, ?_, ?_⟩
  · intro hbad
    unfold createShortenedUrl
    simp [hv, ht, hc, hbad]
  · intro hgood htaken
    unfold createShortenedUrl
    simp [hv, ht, hc, hgood, htaken]
  · intro hgood htaken
    refine ⟨(mkCreated st req now freshId s).1, (mkCreated st req now freshId s).2, ?_, rfl⟩
    unfold createShortenedUrl
    simp [hv, ht, hc, hgood, htaken]

/-- Witness for C4 (amended): requesting the already-stored code `"promo1"`
fails with `ShortCodeTaken`. -/
theorem c4_custom_code_amended_witness :
    createShortenedUrl vTrue stFix ⟨"https://example.com/b", some 1, some "promo1"⟩
      0 sAll0 "u2" = .error .shortCodeTaken :=
  (c4_custom_code_amended vTrue stFix ⟨"https://example.com/b", some 1, some "promo1"⟩
    0 sAll0 "u2" "promo1" rfl (by decide) rfl).2.1 rfl rfl

/-- C10: a create whose `customShortCode` is the empty string is treated as
if no custom code were supplied — it auto-generates a code and succeeds
(given a valid URL) even though `""` does not match `^[A-Za-z0-9]{1,20}$`,
and the stored mapping's `customCode` field records the empty string. -/
theorem c10_empty_custom_code (validUrl : String → Bool) (st : RegistryState)
    (req : CreateUrlRequest) (now : Int) (stream : Nat → Fin 62) (freshId : String)
    (hc : req.customShortCode = some "") (hv : validUrl req.originalUrl = true) :
    isValidShortCode "" = false ∧
    ∃ url st', createShortenedUrl validUrl st req now stream freshId = .ok (url, st') ∧
      url.shortCode = generateUniqueShortCode (isShortCodeTaken st) stream ∧
      url.customCode = some "" := by
  have ht : optTruthy req.customShortCode = false := by rw [hc]; rfl
  refine ⟨rfl, (mkCreated st req now freshId
      (generateUniqueShortCode (isShortCodeTaken st) stream)).1,
    (mkCreated st req now freshId
      (generateUniqueShortCode (isShortCodeTaken st) stream)).2, ?_, rfl, ?_⟩
  · unfold createShortenedUrl
    simp [hv, ht]
  · exact hc

/-- Witness for C10: the concrete empty-custom-code create from the empty
registry at time 0 under the all-zero stream. -/
theorem c10_empty_custom_code_witness :
    isValidShortCode "" = false ∧
    ∃ url st', createShortenedUrl vTrue stEmpty
        ⟨"https://example.com/a", some 1, some ""⟩ 0 sAll0 "e1" = .ok (url, st') ∧
      url.shortCode = generateUniqueShortCode (isShortCodeTaken stEmpty) sAll0 ∧
      url.customCode = some "" :=
  c10_empty_custom_code vTrue stEmpty ⟨"https://example.com/a", some 1, some ""⟩
    0 sAll0 "e1" rfl rfl

end UrlService

namespace UrlService

/-- C5: lookup returns `NotFound` when no stored mapping has the code; on a
mapping whose expiry has strictly passed (`now > expiresAt`) it caches
`isExpired := true` on that one entry (leaving all others untouched) and
returns `NotFound`; otherwise (`now ≤ expiresAt`) it returns the mapping —
the expired check is the strict comparison evaluated at read time. -/
theorem c5_lookup (st : RegistryState) (code : String) (now : Int) :
    ((∀ p ∈ st.urls, p.2.shortCode ≠ code) → getUrlByShortCode st code now = (none, st)) ∧
    (∀ k url, st.urls.find? (fun p => p.2.shortCode == code) = some (k, url) →
      (now > url.expiresAt →
        getUrlByShortCode st code now = (none, markExpired st k) ∧
        updatedAt st (markExpired st k) k (fun u => { u with isExpired := true })) ∧
      (now ≤ url.expiresAt → getUrlByShortCode st code now = (some url, st))) := by
  constructor
  · intro hnone
    have hf : st.urls.find? (fun p => p.2.shortCode == code) = none := by
      rw [List.find?_eq_none]
      intro p hp
      simpa using hnone p hp
    rw [getUrlByShortCode, getUrlEntry_none st code now hf]
    rfl
  · intro k url hf
    constructor
    · intro hx
      refine ⟨?_, updatedAt_markExpired st k⟩
      rw [getUrlByShortCode, getUrlEntry_expired st code now k url hf hx]
      rfl
    · intro hx
      rw [getUrlByShortCode, getUrlEntry_live st code now k url hf (by omega)]
      rfl

/-- Witness for C5: looking up `"promo1"` at time 100000 (past its expiry
60000) flags the stored mapping and reports not-found. -/
theorem c5_lookup_witness :
    getUrlByShortCode stFix "promo1" 100000 = (none, markExpired stFix "u1") ∧
    updatedAt stFix (markExpired stFix "u1") "u1" (fun u => { u with isExpired := true }) :=
  ((c5_lookup stFix "promo1" 100000).2 "u1" uFix rfl).1 (by decide)

/-- C6: `recordClickAndRedirect` on an expired or nonexistent code returns
`NotFound` and leaves every mapping's click sequence unchanged; on a live
code it appends exactly one click to the found mapping (all other mappings
untouched) and returns its `originalUrl`; and no other Registry operation
(create, lookup, listAll, delete, clear) ever grows any click sequence. -/
theorem c6_record_click (st : RegistryState) (code source : String) (now : Int)
    (cid ua : String) :
    ((getUrlByShortCode st code now).1 = none →
      (recordClickAndRedirect st code source now cid ua).1 = none ∧
      clicksPreservedFrom st (recordClickAndRedirect st code source now cid ua).2) ∧
    (∀ k url, (getUrlEntryByShortCode st code now).1 = some (k, url) →
      (recordClickAndRedirect st code source now cid ua).1 = some url.originalUrl ∧
      updatedAt st (recordClickAndRedirect st code source now cid ua).2 k
        (clickUpd (mkClick cid now source ua))) ∧
    (∀ validUrl req stream freshId url st',
      createShortenedUrl validUrl st req now stream freshId = .ok (url, st') →
      clicksPreservedOrNew st st') ∧
    clicksPreservedFrom st (getUrlByShortCode st code now).2 ∧
    clicksPreservedFrom st (getAllUrls st now).2 ∧
    (∀ id, clicksPreservedFrom st (deleteUrl st id).2) ∧
    clicksPreservedFrom st (clearAllData st) := by
  refine ⟨?_, ?_,
    fun validUrl req stream freshId url st' h =>
      clicksPreservedOrNew_create validUrl st req now stream freshId url st' h,
    clicksPreservedFrom_lookup st code now,
    clicksPreservedFrom_getAllUrls st now,
    fun id => clicksPreservedFrom_deleteUrl st id,
    clicksPreservedFrom_clear st⟩
  · intro hmiss
    rcases hf : st.urls.find? (fun p => p.2.shortCode == code) with - | ⟨k, url⟩
    · rw [recordClickAndRedirect, getUrlEntry_none st code now hf]
      exact ⟨rfl, fun p hp => ⟨p, hp, rfl, rfl⟩⟩
    · by_cases hx : now > url.expiresAt
      · rw [recordClickAndRedirect, getUrlEntry_expired st code now k url hf hx]
        exact ⟨rfl, clicksPreservedFrom_markExpired st k⟩
      · exfalso
        rw [getUrlByShortCode, getUrlEntry_live st code now k url hf hx] at hmiss
        cases hmiss
  · intro k url hentry
    rcases hf : st.urls.find? (fun p => p.2.shortCode == code) with - | ⟨k', url'⟩
    · rw [getUrlEntry_none st code now hf] at hentry
      cases hentry
    · by_cases hx : now > url'.expiresAt
      · rw [getUrlEntry_expired st code now k' url' hf hx] at hentry
        cases hentry
      · rw [getUrlEntry_live st code now k' url' hf hx] at hentry
        injection hentry with hentry
        cases hentry
        rw [recordClick_live st code source now cid ua k url hf hx]
        exact ⟨rfl, updatedAt_pushClick st k (mkClick cid now source ua)⟩

/-- Witness for C6: a click on the live code `"promo1"` at time 1000 returns
its destination URL and appends exactly one click to that mapping. -/
theorem c6_record_click_witness :
    (recordClickAndRedirect stFix "promo1" "direct" 1000 "c1" "ua").1
      = some uFix.originalUrl ∧
    updatedAt stFix (recordClickAndRedirect stFix "promo1" "direct" 1000 "c1" "ua").2 "u1"
      (clickUpd (mkClick "c1" 1000 "direct" "ua")) :=
  (c6_record_click stFix "promo1" "direct" 1000 "c1" "ua").2.1 "u1" uFix rfl

/-- C7: `totalClicks` equals the click-sequence length after every Registry
operation (0 at creation), and the click log is append-only in call order:
`n` successful `recordAccessAndResolve` calls on a live code leave the
mapping with exactly its previous clicks followed by the `n` new ones, with
`totalClicks` matching. -/
theorem c7_click_accounting (st : RegistryState) (now : Int) :
    (totalClicksInv st →
      (∀ validUrl req stream freshId url st',
        createShortenedUrl validUrl st req now stream freshId = .ok (url, st') →
        url.totalClicks = 0 ∧ url.clicks = [] ∧ totalClicksInv st') ∧
      (∀ code, totalClicksInv (getUrlByShortCode st code now).2) ∧
      (∀ code source cid ua,
        totalClicksInv (recordClickAndRedirect st code source now cid ua).2) ∧
      totalClicksInv (getAllUrls st now).2 ∧
      (∀ id, totalClicksInv (deleteUrl st id).2) ∧
      totalClicksInv (clearAllData st)) ∧
    (∀ code calls k url,
      keysNodup st →
      st.urls.find? (fun p => p.2.shortCode == code) = some (k, url) →
      url.totalClicks = url.clicks.length →
      (∀ c ∈ calls, ¬ (c.now > url.expiresAt)) →
      (runClicks code calls st).1 = calls.map (fun _ => some url.originalUrl) ∧
      (runClicks code calls st).2.urls.find? (fun p => p.2.shortCode == code)
        = some (k, { url with
            clicks := url.clicks ++ calls.map callClick
            totalClicks := url.clicks.length + calls.length })) := by
  constructor
  · intro hinv
    refine ⟨?_, fun code => totalClicksInv_lookup st code now hinv,
      fun code source cid ua => totalClicksInv_record st code source now cid ua hinv,
      totalClicksInv_getAllUrls st now hinv,
      fun id => totalClicksInv_deleteUrl st id hinv,
      totalClicksInv_clear st⟩
    intro validUrl req stream freshId url st' h
    obtain ⟨-, hu, -, -⟩ := create_ok_inv validUrl st req now stream freshId url st' h
    exact ⟨by rw [hu]; rfl, by rw [hu]; rfl,
      totalClicksInv_create validUrl st req now stream freshId url st' h hinv⟩
  · intro code calls k url hnd hf hinvu hlive
    obtain ⟨h1, h2, -⟩ := runClicks_spec code calls st k url hnd hf hinvu hlive
    exact ⟨h1, h2⟩

/-- Witness for C7: two live clicks on `"promo1"` both resolve and leave the
mapping with exactly those two clicks and `totalClicks = 2`. -/
theorem c7_click_accounting_witness :
    (runClicks "promo1" wCalls stFix).1 = wCalls.map (fun _ => some uFix.originalUrl) ∧
    (runClicks "promo1" wCalls stFix).2.urls.find? (fun p => p.2.shortCode == "promo1")
      = some ("u1", { uFix with
          clicks := uFix.clicks ++ wCalls.map callClick
          totalClicks := uFix.clicks.length + wCalls.length }) :=
  (c7_click_accounting stFix 0).2 "promo1" wCalls "u1" uFix
    (by unfold keysNodup; decide) rfl rfl (by decide)

end UrlService

namespace UrlService

/-- C8: `delete(id)` on an absent id returns false and leaves the registry
unchanged; on a present id it returns true and removes exactly that one
mapping, leaving all others in place — and since uniqueness is checked only
against currently stored mappings, the removed mapping's code (when no other
mapping holds it) is no longer taken and is accepted again by a later create
with that custom code. -/
theorem c8_delete (st : RegistryState) (id : String) :
    ((∀ p ∈ st.urls, p.1 ≠ id) → deleteUrl st id = (false, st)) ∧
    (∀ url, (id, url) ∈ st.urls →
      (deleteUrl st id).1 = true ∧
      (deleteUrl st id).2.urls = st.urls.filter (fun p => !(p.1 == id)) ∧
      (∀ p ∈ st.urls, p.1 ≠ id → p ∈ (deleteUrl st id).2.urls) ∧
      (∀ p ∈ (deleteUrl st id).2.urls, p ∈ st.urls ∧ p.1 ≠ id) ∧
      ((∀ p ∈ st.urls, p.2.shortCode = url.shortCode → p.1 = id) →
        isShortCodeTaken (deleteUrl st id).2 url.shortCode = false ∧
        (∀ validUrl now stream freshId origUrl vm,
          validUrl origUrl = true → isValidShortCode url.shortCode = true →
          ∃ u' st'', createShortenedUrl validUrl (deleteUrl st id).2
              ⟨origUrl, vm, some url.shortCode⟩ now stream freshId = .ok (u', st'') ∧
            u'.shortCode = url.shortCode))) := by
  constructor
  · intro hnone
    rw [deleteUrl]
    split
    · next hany =>
      exfalso
      rw [List.any_eq_true] at hany
      obtain ⟨p, hp, hpk⟩ := hany
      exact hnone p hp (eq_of_beq hpk)
    · rfl
  · intro url hmem
    have hany : st.urls.any (fun p => p.1 == id) = true := by
      rw [List.any_eq_true]
      exact ⟨(id, url), hmem, by simp⟩
    have hdel : deleteUrl st id = (true, ⟨st.urls.filter (fun p => !(p.1 == id))⟩) := by
      rw [deleteUrl, if_pos hany]
    rw [hdel]
    have htaken : (∀ p ∈ st.urls, p.2.shortCode = url.shortCode → p.1 = id) →
        isShortCodeTaken (⟨st.urls.filter (fun p => !(p.1 == id))⟩ : RegistryState)
          url.shortCode = false := by
      intro huniq
      rw [isShortCodeTaken, List.any_eq_false]
      intro p hp
      rw [List.mem_filter] at hp
      intro hbeq
      have hpid : p.1 = id := huniq p hp.1 (eq_of_beq hbeq)
      rw [hpid] at hp
      simp at hp
    refine ⟨rfl, rfl, ?_, ?_, ?_⟩
    · intro p hp hpid
      rw [List.mem_filter]
      exact ⟨hp, by simpa using hpid⟩
    · intro p hp
      rw [List.mem_filter] at hp
      exact ⟨hp.1, by simpa using hp.2⟩
    · intro huniq
      refine ⟨htaken huniq, ?_⟩
      intro validUrl now stream freshId origUrl vm hv hval
      exact ⟨_, _, create_custom_ok validUrl _ origUrl vm url.shortCode now stream freshId
        hv hval (htaken huniq), rfl⟩

/-- Witness for C8: deleting the stored mapping `"u1"` succeeds, frees the
code `"promo1"`, and a later create with that custom code succeeds. -/
theorem c8_delete_witness :
    (deleteUrl stFix "u1").1 = true ∧
    isShortCodeTaken (deleteUrl stFix "u1").2 uFix.shortCode = false ∧
    ∃ u' st'', createShortenedUrl vTrue (deleteUrl stFix "u1").2
        ⟨"https://b.example", some 5, some uFix.shortCode⟩ 0 sAll0 "u9" = .ok (u', st'') ∧
      u'.shortCode = uFix.shortCode := by
  have h := (c8_delete stFix "u1").2 uFix (by decide)
  have h5 := h.2.2.2.2 (by decide)
  exact ⟨h.1, h5.1, h5.2 vTrue 0 sAll0 "u9" "https://b.example" (some 5) rfl (by decide)⟩

/-- C9: `listAll` returns every stored mapping (expired ones included) with
each `isExpired` flag recomputed against the current time before returning
(given the cache-soundness invariant that a flag already set implies the
expiry had passed), and the returned sequence is sorted by `createdAt`
descending (most recent first). -/
theorem c9_list_all (st : RegistryState) (now : Int)
    (hcache : ∀ p ∈ st.urls, p.2.isExpired = true → now > p.2.expiresAt) :
    (getAllUrls st now).2.urls = st.urls.map (fun p => (p.1, refreshExpired now p.2)) ∧
    (getAllUrls st now).1.Perm (st.urls.map (fun p => refreshExpired now p.2)) ∧
    (∀ u ∈ (getAllUrls st now).1, u.isExpired = decide (now > u.expiresAt)) ∧
    (getAllUrls st now).1.Pairwise (fun a b => b.createdAt ≤ a.createdAt) := by
  have hm : ((st.urls.map (fun p => (p.1, refreshExpired now p.2))).map (fun p => p.2))
      = st.urls.map (fun p => refreshExpired now p.2) := by
    rw [List.map_map]; rfl
  refine ⟨rfl, ?_, ?_, ?_⟩
  · rw [getAllUrls]
    simp only [hm]
    exact perm_sortByCreatedDesc _
  · intro u hu
    have hperm : (getAllUrls st now).1.Perm (st.urls.map (fun p => refreshExpired now p.2)) := by
      rw [getAllUrls]
      simp only [hm]
      exact perm_sortByCreatedDesc _
    have hmem : u ∈ st.urls.map (fun p => refreshExpired now p.2) := hperm.mem_iff.mp hu
    rw [List.mem_map] at hmem
    obtain ⟨q, hq, rfl⟩ := hmem
    by_cases hx : now > q.2.expiresAt
    · simp [refreshExpired, hx]
    · have hflag : q.2.isExpired = false := by
        cases hflag : q.2.isExpired
        · rfl
        · exact absurd (hcache q hq hflag) hx
      simp [refreshExpired, hx, hflag]
  · rw [getAllUrls]
    simp only [hm]
    exact pairwise_sortByCreatedDesc _

/-- Witness for C9: listing the one-mapping registry at time 100000 (past
expiry) returns the mapping with its flag recomputed to expired, sorted. -/
theorem c9_list_all_witness :
    (getAllUrls stFix 100000).2.urls
      = stFix.urls.map (fun p => (p.1, refreshExpired 100000 p.2)) ∧
    (getAllUrls stFix 100000).1.Perm
      (stFix.urls.map (fun p => refreshExpired 100000 p.2)) ∧
    (∀ u ∈ (getAllUrls stFix 100000).1, u.isExpired = decide ((100000 : Int) > u.expiresAt)) ∧
    (getAllUrls stFix 100000).1.Pairwise (fun a b => b.createdAt ≤ a.createdAt) :=
  c9_list_all stFix 100000 (by decide)

end UrlService
